import Mathlib

/-!
Shallow embedding of the php-runner version-dispatch launcher (main.go).

Modelling choices:
* A directory is a `List String` of path components, innermost component
  first; the parent of `c :: rest` is `rest` and the parent of the
  filesystem root `[]` is `[]` again (mirroring `filepath.Dir` reaching a
  fixed point at the root, the loop-exit test `parent == dir`).
* The marker-file state of the filesystem is `FS : Dir → Option String`,
  giving the raw content of the `.php-version` file of each directory
  (`none` when `os.ReadFile` fails, i.e. the file is absent).
* File-system side effects are made observable as a trace of `FsOp`
  events (`read`/`write`), mirroring the `os.ReadFile`/`os.WriteFile`
  calls the Go code performs.
* `strings.TrimSpace` is embedded as `trimChars`, dropping leading and
  trailing whitespace characters.
* The Go map `Config` is embedded as an insertion-ordered association
  list; `Config.get` returns the last binding (map assignment overwrites)
  and `""` for an absent key, matching Go's zero-value map lookup.
* The ambient probe `getCurrentPhpVersion` (an external subprocess) is a
  parameter `probe : String` (`""` = probe failed), and the instrumented
  resolver records in `probed` whether the probe was consulted.
-/

instance {ε α : Type} [DecidableEq ε] [DecidableEq α] : DecidableEq (Except ε α)
  | .ok a, .ok b =>
    if h : a = b then .isTrue (by rw [h])
    else .isFalse (by intro hc; cases hc; exact h rfl)
  | .ok _, .error _ => .isFalse (by intro h; cases h)
  | .error _, .ok _ => .isFalse (by intro h; cases h)
  | .error e, .error f =>
    if h : e = f then .isTrue (by rw [h])
    else .isFalse (by intro hc; cases hc; exact h rfl)

abbrev Dir := List String

abbrev FS := Dir → Option String

inductive FsOp where
  | read (d : Dir)
  | write (d : Dir) (content : String)
deriving DecidableEq

def FsOp.isWrite : FsOp → Bool
  | .read _ => false
  | .write _ _ => true

def FS.update (fs : FS) (d : Dir) (c : String) : FS :=
  fun d2 => if d2 = d then some c else fs d2

/-- Replay a trace of file operations on a filesystem state. -/
def applyOps (fs : FS) : List FsOp → FS
  | [] => fs
  | .read _ :: rest => applyOps fs rest
  | .write d c :: rest => applyOps (fs.update d c) rest

/-- `strings.TrimSpace`: drop leading and trailing whitespace. -/
def trimChars (s : String) : String :=
  ⟨((s.data.dropWhile Char.isWhitespace).reverse.dropWhile Char.isWhitespace).reverse⟩

/-- `strings.HasPrefix line "#"`: the line starts a comment. -/
def isComment (s : String) : Bool :=
  s.data.head? = some '#'

/-- `strings.SplitN line ":" 2`: split at the first colon, `none` when the
line has no colon (Go then yields a single part, `len(parts) != 2`). -/
def splitOnColon (s : String) : Option (String × String) :=
  match s.data.span (fun c => !(c = ':')) with
  | (_, []) => none
  | (before, _ :: after) => some (⟨before⟩, ⟨after⟩)

-- Constants of main.go.
def configFileName : String := "php-runner.yaml"
def versionFile : String := ".php-version"
def defaultVersion : String := "8.2"

abbrev Config := List (String × String)

/-- Go map lookup with zero value: the last binding for `key`, else `""`
(`config[version]` after the insertions performed by `loadConfig`). -/
def Config.get (c : Config) (key : String) : String :=
  match c.reverse.find? (fun e => e.1 = key) with
  | some e => e.2
  | none => ""

/-- Go's two-value map lookup `_, exists := config[version]`. -/
def Config.hasKey (c : Config) (key : String) : Bool :=
  c.any (fun e => e.1 = key)

/-- `config[version] = path`: map assignment (later binding wins). -/
def Config.set (c : Config) (key v : String) : Config :=
  c ++ [(key, v)]

inductive LoadError where
  | invalidFormat (lineNumber : Nat) (line : String)
  | emptyPart (lineNumber : Nat) (line : String)
  | emptyConfig
deriving DecidableEq

/-- Line number and (trimmed) line content reported by a malformed-entry
error; `none` for the end-of-load empty-config error. -/
def LoadError.errInfo : LoadError → Option (Nat × String)
  | .invalidFormat n l => some (n, l)
  | .emptyPart n l => some (n, l)
  | .emptyConfig => none

/-- The scanner loop of `loadConfig`: `lineNumber` lines were already
consumed and `config` holds the entries accumulated so far. -/
def loadConfigAux (ex : String → Bool) : List String → Nat → Config → Except LoadError Config
  | [], _, config =>
    if config = [] then .error .emptyConfig else .ok config
  | l :: rest, lineNumber, config =>
    let n := lineNumber + 1
    let line := trimChars l
    if line = "" || isComment line then
      loadConfigAux ex rest n config
    else
      match splitOnColon line with
      | none => .error (.invalidFormat n line)
      | some (v, p) =>
        let version := trimChars v
        let path := trimChars p
        if version = "" || path = "" then .error (.emptyPart n line)
        else if ex path then loadConfigAux ex rest n (config.set version path)
        else loadConfigAux ex rest n config

/-- `loadConfig`: parse the configuration lines; `ex` is the `os.Stat`
existence check applied to each entry's path. -/
def loadConfig (ex : String → Bool) (lines : List String) : Except LoadError Config :=
  loadConfigAux ex lines 0 []

/-- One iteration's test of `findPhpVersionFile`: the trimmed marker-file
content of `d` when the file is readable and its trimmed content is
non-empty. -/
def readMarker (fs : FS) (d : Dir) : Option String :=
  match fs d with
  | some content =>
    let version := trimChars content
    if version = "" then none else some version
  | none => none

/-- `findPhpVersionFile`: walk from `startDir` towards the root, returning
the first non-empty trimmed marker content (`""` when none is found),
together with the trace of file reads performed. -/
def findPhpVersionFile (fs : FS) : Dir → String × List FsOp
  | [] =>
    match readMarker fs [] with
    | some v => (v, [.read []])
    | none => ("", [.read []])
  | c :: rest =>
    match readMarker fs (c :: rest) with
    | some v => (v, [.read (c :: rest)])
    | none =>
      let r := findPhpVersionFile fs rest
      (r.1, .read (c :: rest) :: r.2)

/-- `createPhpVersionFile`: write `version ++ "\n"` into the marker file of
`dir`, returning the new filesystem and the write event. -/
def createPhpVersionFile (fs : FS) (dir : Dir) (version : String) : FS × List FsOp :=
  let content := version ++ "\n"
  (fs.update dir content, [.write dir content])

/-- Result of a `getPhpVersion` run: the resolved label (`none` when the
function reaches its fatal `os.Exit(1)` branch), the resulting filesystem,
the trace of file operations, and whether `getCurrentPhpVersion` was
invoked. -/
structure ResolveOut where
  version : Option String
  fs : FS
  ops : List FsOp
  probed : Bool

/-- `getPhpVersion`: marker lookup, then ambient probe, then hard-coded
default, then first config entry, else fatal. `probe` is the label the
ambient probe would report (`""` when it fails). -/
def getPhpVersion (cwd : Dir) (config : Config) (probe : String) (fs : FS) : ResolveOut :=
  let f := findPhpVersionFile fs cwd
  let version := f.1
  if version ≠ "" && config.get version ≠ "" then
    ⟨some version, fs, f.2, false⟩
  else
    let currentVersion := probe
    if currentVersion ≠ "" && config.get currentVersion ≠ "" then
      let w := createPhpVersionFile fs cwd currentVersion
      ⟨some currentVersion, w.1, f.2 ++ w.2, true⟩
    else if config.get defaultVersion ≠ "" then
      let w := createPhpVersionFile fs cwd defaultVersion
      ⟨some defaultVersion, w.1, f.2 ++ w.2, true⟩
    else
      match config.head? with
      | some e =>
        let w := createPhpVersionFile fs cwd e.1
        ⟨some e.1, w.1, f.2 ++ w.2, true⟩
      | none => ⟨none, fs, f.2, true⟩

-- Configuration-file discovery (findConfigFile).

/-- Inputs of `findConfigFile`: platform, the environment variables it
consults (`""` = unset) and the directory of the running executable
(`none` when `os.Executable` fails). -/
structure Env where
  windows : Bool
  userProfile : String
  appData : String
  programData : String
  home : String
  exeDir : Option String

/-- `filepath.Join` of a directory and a file name (separator abstracted). -/
def joinPath (dir name : String) : String :=
  dir ++ "/" ++ name

/-- The ordered probe list `searchPaths` built by `findConfigFile`. -/
def searchPaths (e : Env) : List String :=
  (if e.windows then
    (if e.userProfile ≠ "" then [joinPath e.userProfile configFileName] else []) ++
    (if e.appData ≠ "" then [joinPath e.appData configFileName] else []) ++
    (if e.programData ≠ "" then [joinPath e.programData configFileName] else [])
  else
    (if e.home ≠ "" then [joinPath e.home ("." ++ configFileName)] else []) ++
    [joinPath "/etc" configFileName, joinPath "/usr/local" configFileName]) ++
  (match e.exeDir with
   | some d => [joinPath d configFileName]
   | none => [])

inductive FindError where
  | notFound (paths : List String)
  | noLocations
deriving DecidableEq

/-- `findConfigFile`: first existing path of `searchPaths`, else an error
carrying every probed path (or `noLocations` when the list is empty). -/
def findConfigFile (e : Env) (ex : String → Bool) : Except FindError String :=
  let ps := searchPaths e
  match ps.find? ex with
  | some p => .ok p
  | none =>
    if ps = [] then .error .noLocations
    else .error (.notFound ps)

-- The launch stage and the whole of main.

inductive ChildOutcome where
  | exited (code : Nat)
  | launchFail
deriving DecidableEq

/-- The tail of `main`: `cmd.Run()` outcome to process exit code. A normal
child exit mirrors the child's code (0 → `Run` returns nil and `main`
falls through to exit 0; nonzero → `ExitError` wait status); a launch
failure exits 1. -/
def runPhp : ChildOutcome → Nat
  | .exited c => c
  | .launchFail => 1

/-- The exit code of `main`, with each external interaction a parameter:
the config-file discovery result, the config-load result, the working
directory, the ambient-probe label, the marker filesystem, the
executable-existence check and the child-process outcome per launched
path. -/
def mainRun (configRes : Except FindError String)
    (loadRes : Except LoadError Config)
    (cwd : Dir) (probe : String) (fs : FS)
    (phpExists : String → Bool)
    (child : String → ChildOutcome) : Nat :=
  match configRes with
  | .error _ => 1
  | .ok _ =>
    match loadRes with
    | .error _ => 1
    | .ok config =>
      match (getPhpVersion cwd config probe fs).version with
      | none => 1
      | some version =>
        if config.hasKey version then
          let phpPath := config.get version
          if phpExists phpPath then runPhp (child phpPath)
          else 1
        else 1

/-- The chain of directories visited by the marker search: `d`, its
parent, …, down to the root `[]`. -/
def chain : Dir → List Dir
  | [] => [[]]
  | c :: rest => (c :: rest) :: chain rest

/-- A config line that is neither blank nor a comment after trimming, yet
does not split into exactly two non-empty trimmed parts (the condition on
which `loadConfig` aborts). -/
def badLine (l : String) : Bool :=
  let line := trimChars l
  if line = "" || isComment line then false
  else
    match splitOnColon line with
    | none => true
    | some (v, p) => trimChars v = "" || trimChars p = ""

/-- The (label, path) pair parsed from a well-formed, non-skipped config
line. -/
def parseLine (l : String) : Option (String × String) :=
  let line := trimChars l
  if line = "" || isComment line then none
  else
    match splitOnColon line with
    | none => none
    | some (v, p) =>
      let version := trimChars v
      let path := trimChars p
      if version = "" || path = "" then none else some (version, path)

/-- The entries a fully well-formed source contributes: its parsed lines
whose paths exist, in line order. -/
def goodEntries (ex : String → Bool) (lines : List String) : Config :=
  lines.filterMap (fun l => (parseLine l).bind (fun e => if ex e.2 then some e else none))

/-- Concrete Unix environment used in witnesses. -/
def envUnix : Env := ⟨false, "", "", "", "/home/u", some "/opt"⟩

/-- Concrete existence check used in witnesses: only the system-wide
config path exists. -/
def exEtc : String → Bool := fun p => p == "/etc/php-runner.yaml"


-- Helper lemmas about the marker search.

/-- Every file operation of `findPhpVersionFile` is a read. -/
theorem findPhpVersionFile_readonly (fs : FS) (d : Dir) :
    ∀ op ∈ (findPhpVersionFile fs d).2, op.isWrite = false := by
  induction d with
  | nil =>
    intro op hop
    cases h : readMarker fs [] <;>
      simp [findPhpVersionFile, h] at hop <;> simp [hop, FsOp.isWrite]
  | cons c rest ih =>
    intro op hop
    cases h : readMarker fs (c :: rest) with
    | some v =>
      simp [findPhpVersionFile, h] at hop
      simp [hop, FsOp.isWrite]
    | none =>
      simp [findPhpVersionFile, h] at hop
      rcases hop with hop | hop
      · simp [hop, FsOp.isWrite]
      · exact ih op hop

/-- Replaying a write-free trace leaves the filesystem unchanged. -/
theorem applyOps_of_readonly (fs : FS) (ops : List FsOp)
    (h : ∀ op ∈ ops, op.isWrite = false) : applyOps fs ops = fs := by
  induction ops with
  | nil => rfl
  | cons op rest ih =>
    cases op with
    | read d =>
      simp [applyOps]
      exact ih (fun o ho => h o (by simp [ho]))
    | write d c =>
      have := h (.write d c) (by simp)
      simp [FsOp.isWrite] at this

/-- The marker search result is the first non-empty trimmed marker on the
chain from the start directory to the root. -/
theorem findPhpVersionFile_eq_chain (fs : FS) (d : Dir) :
    (findPhpVersionFile fs d).1 = ((chain d).findSome? (readMarker fs)).getD "" := by
  induction d with
  | nil =>
    cases h : readMarker fs [] <;> simp [findPhpVersionFile, chain, h]
  | cons c rest ih =>
    cases h : readMarker fs (c :: rest) <;> simp [findPhpVersionFile, chain, h, ih]

/-- The search misses exactly when no directory on the chain has a
non-empty trimmed marker. -/
theorem findPhpVersionFile_empty_iff (fs : FS) (d : Dir) :
    (findPhpVersionFile fs d).1 = "" ↔ ∀ t ∈ chain d, readMarker fs t = none := by
  induction d with
  | nil =>
    cases h : readMarker fs [] with
    | some v =>
      simp [findPhpVersionFile, chain, h]
      intro hv
      rw [readMarker] at h
      cases hfs : fs [] <;> rw [hfs] at h
      · cases h
      · by_cases he : trimChars ‹String› = "" <;> simp [he] at h
        subst hv; rw [← h] at he; exact absurd rfl he
    | none => simp [findPhpVersionFile, chain, h]
  | cons c rest ih =>
    cases h : readMarker fs (c :: rest) with
    | some v =>
      simp [findPhpVersionFile, chain, h]
      intro hv
      rw [readMarker] at h
      cases hfs : fs (c :: rest) <;> rw [hfs] at h
      · cases h
      · by_cases he : trimChars ‹String› = "" <;> simp [he] at h
        subst hv; rw [← h] at he; exact absurd rfl he
    | none => simp [findPhpVersionFile, chain, h, ih]

/-- The chain always terminates at the filesystem root. -/
theorem chain_getLast (d : Dir) : (chain d).getLast? = some [] := by
  induction d with
  | nil => rfl
  | cons c rest ih =>
    cases hr : chain rest with
    | nil => cases rest <;> simp [chain] at hr
    | cons x xs =>
      rw [chain, hr, List.getLast?_cons_cons, ← hr, ih]

/-- C6: `findPhpVersionFile` returns the trimmed content of the marker file
of the nearest directory on the chain from the start directory to the
filesystem root whose marker exists with non-empty trimmed content
(first hit wins); when no directory on the chain has one, the walk ends at
the root (parent = current) and reports no label (`""`). -/
theorem findPhpVersionFile_nearest_marker (fs : FS) (d : Dir) :
    (findPhpVersionFile fs d).1 = ((chain d).findSome? (readMarker fs)).getD "" ∧
    ((findPhpVersionFile fs d).1 = "" ↔
      (chain d).all (fun t => (readMarker fs t).isNone) = true) ∧
    (chain d).getLast? = some [] := by
  refine ⟨findPhpVersionFile_eq_chain fs d, ?_, chain_getLast d⟩
  rw [findPhpVersionFile_empty_iff fs d]
  simp [Option.isNone_iff_eq_none]

/-- C7: `findPhpVersionFile` is side-effect-free and idempotent: its
operation trace holds no write, replaying the trace leaves the filesystem
unchanged, and running it again on the resulting filesystem returns the
same answer. -/
theorem findPhpVersionFile_readonly_idempotent (fs : FS) (d : Dir) :
    (findPhpVersionFile fs d).2.all (fun op => !op.isWrite) = true ∧
    applyOps fs (findPhpVersionFile fs d).2 = fs ∧
    findPhpVersionFile (applyOps fs (findPhpVersionFile fs d).2) d = findPhpVersionFile fs d := by
  have h1 := findPhpVersionFile_readonly fs d
  have h2 := applyOps_of_readonly fs _ h1
  refine ⟨?_, h2, by rw [h2]⟩
  simp only [List.all_eq_true, Bool.not_eq_true']
  exact h1

-- Branch-evaluation lemmas for getPhpVersion.

theorem getPhpVersion_branch1 (cwd : Dir) (config : Config) (probe : String) (fs : FS)
    (h1 : (findPhpVersionFile fs cwd).1 ≠ "")
    (h2 : config.get (findPhpVersionFile fs cwd).1 ≠ "") :
    getPhpVersion cwd config probe fs =
      ⟨some (findPhpVersionFile fs cwd).1, fs, (findPhpVersionFile fs cwd).2, false⟩ := by
  rw [getPhpVersion]
  simp [h1, h2]

theorem getPhpVersion_branch2 (cwd : Dir) (config : Config) (probe : String) (fs : FS)
    (hm : ¬((findPhpVersionFile fs cwd).1 ≠ "" ∧ config.get (findPhpVersionFile fs cwd).1 ≠ ""))
    (hp1 : probe ≠ "") (hp2 : config.get probe ≠ "") :
    getPhpVersion cwd config probe fs =
      ⟨some probe, (createPhpVersionFile fs cwd probe).1,
        (findPhpVersionFile fs cwd).2 ++ (createPhpVersionFile fs cwd probe).2, true⟩ := by
  rw [getPhpVersion]
  rw [Classical.not_and_iff_or_not_not] at hm
  rcases hm with hm | hm <;> simp at hm <;> simp [hm, hp1, hp2]

theorem getPhpVersion_branch3 (cwd : Dir) (config : Config) (probe : String) (fs : FS)
    (hm : ¬((findPhpVersionFile fs cwd).1 ≠ "" ∧ config.get (findPhpVersionFile fs cwd).1 ≠ ""))
    (hp : ¬(probe ≠ "" ∧ config.get probe ≠ ""))
    (hd : config.get defaultVersion ≠ "") :
    getPhpVersion cwd config probe fs =
      ⟨some defaultVersion, (createPhpVersionFile fs cwd defaultVersion).1,
        (findPhpVersionFile fs cwd).2 ++ (createPhpVersionFile fs cwd defaultVersion).2, true⟩ := by
  rw [getPhpVersion]
  rw [Classical.not_and_iff_or_not_not] at hm hp
  rcases hm with hm | hm <;> rcases hp with hp | hp <;>
    simp at hm hp <;> simp [hm, hp, hd]

theorem getPhpVersion_branch4 (cwd : Dir) (config : Config) (probe : String) (fs : FS)
    (hm : ¬((findPhpVersionFile fs cwd).1 ≠ "" ∧ config.get (findPhpVersionFile fs cwd).1 ≠ ""))
    (hp : ¬(probe ≠ "" ∧ config.get probe ≠ ""))
    (hd : config.get defaultVersion = "") :
    getPhpVersion cwd config probe fs =
      match config.head? with
      | some e =>
        ⟨some e.1, (createPhpVersionFile fs cwd e.1).1,
          (findPhpVersionFile fs cwd).2 ++ (createPhpVersionFile fs cwd e.1).2, true⟩
      | none => ⟨none, fs, (findPhpVersionFile fs cwd).2, true⟩ := by
  rw [getPhpVersion]
  rw [Classical.not_and_iff_or_not_not] at hm hp
  rcases hm with hm | hm <;> rcases hp with hp | hp <;>
    simp at hm hp <;> simp [hm, hp, hd]

theorem trimChars_append_newline (s : String) : trimChars (s ++ "\n") = trimChars s := by
  have hd : (s ++ "\n").data = s.data ++ ['\n'] := rfl
  rw [trimChars, trimChars, hd, List.dropWhile_append]
  by_cases h : (s.data.dropWhile Char.isWhitespace).isEmpty
  · rw [List.isEmpty_iff] at h
    simp [h, List.dropWhile]
  · rw [Bool.not_eq_true] at h
    rw [h]
    simp [List.reverse_append, List.dropWhile, Char.isWhitespace]

/-- C1 (corrected, amended): the resolver performs no marker write when the
marker lookup from the start directory yields a label present in the
config (it then only reads); conversely, any marker write happens only
when no config-matching marker label was found, and a fallback label is
still returned. -/
theorem getPhpVersion_marker_match_no_write (cwd : Dir) (config : Config) (probe : String) (fs : FS) :
    ((findPhpVersionFile fs cwd).1 ≠ "" → config.get (findPhpVersionFile fs cwd).1 ≠ "" →
      (getPhpVersion cwd config probe fs).fs = fs ∧
      (getPhpVersion cwd config probe fs).ops.all (fun op => !op.isWrite) = true ∧
      (getPhpVersion cwd config probe fs).version = some (findPhpVersionFile fs cwd).1) ∧
    ((getPhpVersion cwd config probe fs).ops.any FsOp.isWrite = true →
      ¬((findPhpVersionFile fs cwd).1 ≠ "" ∧ config.get (findPhpVersionFile fs cwd).1 ≠ "") ∧
      ∃ v, (getPhpVersion cwd config probe fs).version = some v) := by
  constructor
  · intro h1 h2
    rw [getPhpVersion_branch1 cwd config probe fs h1 h2]
    refine ⟨rfl, ?_, rfl⟩
    simp only [List.all_eq_true, Bool.not_eq_true']
    exact findPhpVersionFile_readonly fs cwd
  · intro hw
    by_cases hb1 : (findPhpVersionFile fs cwd).1 ≠ "" ∧ config.get (findPhpVersionFile fs cwd).1 ≠ ""
    · exfalso
      rw [getPhpVersion_branch1 cwd config probe fs hb1.1 hb1.2] at hw
      rw [List.any_eq_true] at hw
      obtain ⟨op, hop, hwr⟩ := hw
      rw [findPhpVersionFile_readonly fs cwd op hop] at hwr
      cases hwr
    · refine ⟨hb1, ?_⟩
      by_cases hb2 : probe ≠ "" ∧ config.get probe ≠ ""
      · exact ⟨probe, by rw [getPhpVersion_branch2 cwd config probe fs hb1 hb2.1 hb2.2]⟩
      · by_cases hd : config.get defaultVersion ≠ ""
        · exact ⟨defaultVersion, by rw [getPhpVersion_branch3 cwd config probe fs hb1 hb2 hd]⟩
        · rw [ne_eq, not_not] at hd
          cases hh : config.head? with
          | some e =>
            refine ⟨e.1, ?_⟩
            rw [getPhpVersion_branch4 cwd config probe fs hb1 hb2 hd]
            simp only [hh]
          | none =>
            exfalso
            rw [getPhpVersion_branch4 cwd config probe fs hb1 hb2 hd] at hw
            simp only [hh] at hw
            rw [List.any_eq_true] at hw
            obtain ⟨op, hop, hwr⟩ := hw
            rw [findPhpVersionFile_readonly fs cwd op hop] at hwr
            cases hwr

/-- C1 counterexample: the start directory `["proj"]` already contains a
marker file (content `"9.9\n"`, a label absent from the config), yet the
resolver writes the marker file of that directory, overwriting it with
`"8.2\n"`. -/
theorem getPhpVersion_overwrites_existing_marker :
    ((fun d => if d = ["proj"] then some "9.9\n" else none : FS) ["proj"]).isSome = true ∧
    (getPhpVersion ["proj"] [("8.2", "/bin/php82")] ""
      (fun d => if d = ["proj"] then some "9.9\n" else none)).ops.any FsOp.isWrite = true ∧
    (getPhpVersion ["proj"] [("8.2", "/bin/php82")] ""
      (fun d => if d = ["proj"] then some "9.9\n" else none)).fs ["proj"] = some "8.2\n" := by
  decide

/-- Witness for the amended C1 theorem at a concrete matching marker. -/
theorem getPhpVersion_marker_match_no_write_witness :
    (getPhpVersion ["proj"] [("8.2", "/bin/php82")] ""
      (fun d => if d = ["proj"] then some "8.2\n" else none)).fs =
      (fun d => if d = ["proj"] then some "8.2\n" else none) ∧
    (getPhpVersion ["proj"] [("8.2", "/bin/php82")] ""
      (fun d => if d = ["proj"] then some "8.2\n" else none)).ops.all (fun op => !op.isWrite) = true ∧
    (getPhpVersion ["proj"] [("8.2", "/bin/php82")] ""
      (fun d => if d = ["proj"] then some "8.2\n" else none)).version =
      some (findPhpVersionFile (fun d => if d = ["proj"] then some "8.2\n" else none) ["proj"]).1 :=
  (getPhpVersion_marker_match_no_write ["proj"] [("8.2", "/bin/php82")] ""
    (fun d => if d = ["proj"] then some "8.2\n" else none)).1 (by decide) (by decide)

/-- C2 (corrected, amended): the round-trip holds for the labels the
program itself can write — a trimmed, non-empty label bound in the config.
Writing the marker with such a label `L` and resolving from the same
directory returns `L`, and the resolution performs no further mutation. -/
theorem createPhpVersionFile_roundtrip (L : String) (config : Config) (d : Dir) (probe : String) (fs : FS)
    (ht : trimChars L = L) (hne : L ≠ "") (hcfg : config.get L ≠ "") :
    (getPhpVersion d config probe (createPhpVersionFile fs d L).1).version = some L ∧
    (getPhpVersion d config probe (createPhpVersionFile fs d L).1).fs =
      (createPhpVersionFile fs d L).1 ∧
    (getPhpVersion d config probe (createPhpVersionFile fs d L).1).ops.all
      (fun op => !op.isWrite) = true := by
  have hr : readMarker (createPhpVersionFile fs d L).1 d = some L := by
    simp [readMarker, createPhpVersionFile, FS.update, trimChars_append_newline, ht, hne]
  have hfind : findPhpVersionFile (createPhpVersionFile fs d L).1 d = (L, [.read d]) := by
    cases d with
    | nil => rw [findPhpVersionFile, hr]
    | cons c rest => rw [findPhpVersionFile, hr]
  have h1 : (findPhpVersionFile (createPhpVersionFile fs d L).1 d).1 ≠ "" := by
    rw [hfind]; exact hne
  have h2 : config.get (findPhpVersionFile (createPhpVersionFile fs d L).1 d).1 ≠ "" := by
    rw [hfind]; exact hcfg
  rw [getPhpVersion_branch1 d config probe _ h1 h2, hfind]
  exact ⟨rfl, rfl, rfl⟩

/-- C2 counterexample: writing the marker with label `"7.0"`, which the
config (only binding `"8.2"`) does not know, then resolving from the same
directory returns `"8.2"` instead of `"7.0"` and performs a further marker
write. -/
theorem roundtrip_fails_for_unconfigured_label :
    (getPhpVersion ["proj"] [("8.2", "/bin/php82")] ""
      (createPhpVersionFile (fun _ => none) ["proj"] "7.0").1).version ≠ some "7.0" ∧
    (getPhpVersion ["proj"] [("8.2", "/bin/php82")] ""
      (createPhpVersionFile (fun _ => none) ["proj"] "7.0").1).ops.any FsOp.isWrite = true := by
  decide

/-- Witness for the amended C2 round-trip at label `"8.2"`. -/
theorem createPhpVersionFile_roundtrip_witness :
    (getPhpVersion ["proj"] [("8.2", "/bin/php82")] ""
      (createPhpVersionFile (fun _ => none) ["proj"] "8.2").1).version = some "8.2" ∧
    (getPhpVersion ["proj"] [("8.2", "/bin/php82")] ""
      (createPhpVersionFile (fun _ => none) ["proj"] "8.2").1).fs =
      (createPhpVersionFile (fun _ => none) ["proj"] "8.2").1 ∧
    (getPhpVersion ["proj"] [("8.2", "/bin/php82")] ""
      (createPhpVersionFile (fun _ => none) ["proj"] "8.2").1).ops.all
      (fun op => !op.isWrite) = true :=
  createPhpVersionFile_roundtrip "8.2" [("8.2", "/bin/php82")] ["proj"] "" (fun _ => none)
    (by decide) (by decide) (by decide)

/-- C3: the decision order of `getPhpVersion` is fixed, first satisfied
branch wins: a config-matching marker label dominates (and the ambient
probe is then not consulted, no file written); otherwise the probe is
consulted, and a config-matching probe label wins; otherwise the
hard-coded default label wins when configured; otherwise an arbitrary
(first) config entry is used, or resolution is fatal on an empty config. -/
theorem getPhpVersion_decision_order (cwd : Dir) (config : Config) (probe : String) (fs : FS) :
    (((findPhpVersionFile fs cwd).1 ≠ "" ∧ config.get (findPhpVersionFile fs cwd).1 ≠ "") →
      (getPhpVersion cwd config probe fs).version = some (findPhpVersionFile fs cwd).1 ∧
      (getPhpVersion cwd config probe fs).probed = false ∧
      (getPhpVersion cwd config probe fs).fs = fs) ∧
    (¬((findPhpVersionFile fs cwd).1 ≠ "" ∧ config.get (findPhpVersionFile fs cwd).1 ≠ "") →
      (getPhpVersion cwd config probe fs).probed = true) ∧
    (¬((findPhpVersionFile fs cwd).1 ≠ "" ∧ config.get (findPhpVersionFile fs cwd).1 ≠ "") →
      (probe ≠ "" ∧ config.get probe ≠ "") →
      (getPhpVersion cwd config probe fs).version = some probe) ∧
    (¬((findPhpVersionFile fs cwd).1 ≠ "" ∧ config.get (findPhpVersionFile fs cwd).1 ≠ "") →
      ¬(probe ≠ "" ∧ config.get probe ≠ "") → config.get defaultVersion ≠ "" →
      (getPhpVersion cwd config probe fs).version = some defaultVersion) ∧
    (¬((findPhpVersionFile fs cwd).1 ≠ "" ∧ config.get (findPhpVersionFile fs cwd).1 ≠ "") →
      ¬(probe ≠ "" ∧ config.get probe ≠ "") → config.get defaultVersion = "" →
      (getPhpVersion cwd config probe fs).version = config.head?.map Prod.fst) := by
  refine ⟨?_, ?_, ?_, ?_, ?_⟩
  · rintro ⟨h1, h2⟩
    rw [getPhpVersion_branch1 cwd config probe fs h1 h2]
    exact ⟨rfl, rfl, rfl⟩
  · intro hm
    by_cases hb2 : probe ≠ "" ∧ config.get probe ≠ ""
    · rw [getPhpVersion_branch2 cwd config probe fs hm hb2.1 hb2.2]
    · by_cases hd : config.get defaultVersion ≠ ""
      · rw [getPhpVersion_branch3 cwd config probe fs hm hb2 hd]
      · rw [ne_eq, not_not] at hd
        rw [getPhpVersion_branch4 cwd config probe fs hm hb2 hd]
        cases hh : config.head? <;> simp only [hh]
  · rintro hm ⟨hp1, hp2⟩
    rw [getPhpVersion_branch2 cwd config probe fs hm hp1 hp2]
  · intro hm hp hd
    rw [getPhpVersion_branch3 cwd config probe fs hm hp hd]
  · intro hm hp hd
    rw [getPhpVersion_branch4 cwd config probe fs hm hp hd]
    cases hh : config.head? <;> simp [hh]

/-- Witness for the C3 decision order: with no marker anywhere, the probe
label `"8.2"` (present in the config) is resolved. -/
theorem getPhpVersion_decision_order_witness :
    (getPhpVersion ["proj"] [("8.2", "/bin/php82")] "8.2" (fun _ => none)).version =
      some "8.2" :=
  (getPhpVersion_decision_order ["proj"] [("8.2", "/bin/php82")] "8.2"
    (fun _ => none)).2.2.1 (by decide) (by decide)

/-- Each line is processed by the scanner loop as: skip, abort, or
contribute; a malformed line in the input always aborts, with the error
reporting position `start + k + 1` for the offending 0-based offset `k`. -/
theorem loadConfigAux_malformed (ex : String → Bool) :
    ∀ (lines : List String) (n : Nat) (config : Config),
      (∃ l ∈ lines, badLine l = true) →
      ∃ k l, lines.get? k = some l ∧ badLine l = true ∧
        ∃ e, loadConfigAux ex lines n config = .error e ∧
          e.errInfo = some (n + k + 1, trimChars l)
  | [], _, _, h => by simp at h
  | l :: rest, n, config, h => by
    by_cases hb : badLine l = true
    · refine ⟨0, l, rfl, hb, ?_⟩
      simp only [badLine] at hb
      by_cases hskip : (trimChars l = "" || isComment (trimChars l)) = true
      · rw [if_pos hskip] at hb; cases hb
      · rw [if_neg hskip] at hb
        cases hsp : splitOnColon (trimChars l) with
        | none =>
          refine ⟨.invalidFormat (n + 1) (trimChars l), ?_, rfl⟩
          simp only [loadConfigAux, hsp]
          rw [if_neg hskip]
        | some vp =>
          rw [hsp] at hb
          refine ⟨.emptyPart (n + 1) (trimChars l), ?_, rfl⟩
          simp only [loadConfigAux, hsp]
          rw [if_neg hskip, if_pos hb]
    · have hrest : ∃ l2 ∈ rest, badLine l2 = true := by
        rcases h with ⟨l2, hl2, hbad⟩
        cases hl2 with
        | head => exact absurd hbad hb
        | tail _ hmem => exact ⟨l2, hmem, hbad⟩
      simp only [badLine] at hb
      by_cases hskip : (trimChars l = "" || isComment (trimChars l)) = true
      · obtain ⟨k, l2, hget, hbad2, e, heq, hinfo⟩ :=
          loadConfigAux_malformed ex rest (n + 1) config hrest
        refine ⟨k + 1, l2, by simpa using hget, hbad2, e, ?_, ?_⟩
        · simp only [loadConfigAux]
          rw [if_pos hskip]
          exact heq
        · rw [hinfo]
          congr 2
          omega
      · rw [if_neg hskip] at hb
        cases hsp : splitOnColon (trimChars l) with
        | none => rw [hsp] at hb; cases hb rfl
        | some vp =>
          rw [hsp] at hb
          have hgood : (trimChars vp.1 = "" || trimChars vp.2 = "") = false := by
            cases hx : (decide (trimChars vp.1 = "") || decide (trimChars vp.2 = "")) with
            | true => exact absurd hx hb
            | false => rfl
          by_cases hex : ex (trimChars vp.2) = true
          · obtain ⟨k, l2, hget, hbad2, e, heq, hinfo⟩ :=
              loadConfigAux_malformed ex rest (n + 1)
                (config.set (trimChars vp.1) (trimChars vp.2)) hrest
            refine ⟨k + 1, l2, by simpa using hget, hbad2, e, ?_, ?_⟩
            · simp only [loadConfigAux, hsp]
              rw [if_neg hskip, if_neg (by simp [hgood] : ¬((trimChars vp.1 = "" || trimChars vp.2 = "") = true)), if_pos hex]
              exact heq
            · rw [hinfo]; congr 2; omega
          · obtain ⟨k, l2, hget, hbad2, e, heq, hinfo⟩ :=
              loadConfigAux_malformed ex rest (n + 1) config hrest
            refine ⟨k + 1, l2, by simpa using hget, hbad2, e, ?_, ?_⟩
            · simp only [loadConfigAux, hsp]
              rw [if_neg hskip, if_neg (by simp [hgood] : ¬((trimChars vp.1 = "" || trimChars vp.2 = "") = true)), if_neg hex]
              exact heq
            · rw [hinfo]; congr 2; omega

/-- C4: a configuration source containing a non-blank, non-comment line
that does not split into exactly two non-empty trimmed parts makes
`loadConfig` fail the whole load, with an error reporting the 1-based line
number (and trimmed content) of a malformed line. -/
theorem loadConfig_malformed_fails (ex : String → Bool) (lines : List String)
    (h : ∃ l ∈ lines, badLine l = true) :
    ∃ k l, lines.get? k = some l ∧ badLine l = true ∧
      ∃ e, loadConfig ex lines = .error e ∧ e.errInfo = some (k + 1, trimChars l) := by
  obtain ⟨k, l, hget, hbad, e, heq, hinfo⟩ := loadConfigAux_malformed ex lines 0 [] h
  exact ⟨k, l, hget, hbad, e, heq, by simpa using hinfo⟩

/-- Witness for C4: a source whose second line lacks a separator fails the
load with line number 2. -/
theorem loadConfig_malformed_fails_witness :
    (∃ l ∈ ["8.2: /bin/php82", "oops"], badLine l = true) ∧
    ∃ k l, (["8.2: /bin/php82", "oops"] : List String).get? k = some l ∧ badLine l = true ∧
      ∃ e, loadConfig (fun _ => true) ["8.2: /bin/php82", "oops"] = .error e ∧
        e.errInfo = some (k + 1, trimChars l) :=
  ⟨by decide, loadConfig_malformed_fails (fun _ => true) ["8.2: /bin/php82", "oops"] (by decide)⟩

/-- On a fully well-formed suffix of the source, the scanner loop appends
exactly the parsed entries whose paths exist. -/
theorem loadConfigAux_wellformed (ex : String → Bool) :
    ∀ (lines : List String) (n : Nat) (config : Config),
      (∀ l ∈ lines, badLine l = false) →
      loadConfigAux ex lines n config =
        (if config ++ goodEntries ex lines = [] then .error .emptyConfig
         else .ok (config ++ goodEntries ex lines))
  | [], n, config, _ => by
    simp [loadConfigAux, goodEntries]
  | l :: rest, n, config, h => by
    have hb : badLine l = false := h l (by simp)
    have hrest : ∀ l2 ∈ rest, badLine l2 = false := fun l2 h2 => h l2 (by simp [h2])
    simp only [badLine] at hb
    by_cases hskip : (trimChars l = "" || isComment (trimChars l)) = true
    · have hparse : parseLine l = none := by
        simp only [parseLine]
        rw [if_pos hskip]
      have hge : goodEntries ex (l :: rest) = goodEntries ex rest := by
        simp [goodEntries, List.filterMap_cons, hparse]
      rw [hge]
      simp only [loadConfigAux]
      rw [if_pos hskip]
      exact loadConfigAux_wellformed ex rest (n + 1) config hrest
    · rw [if_neg hskip] at hb
      cases hsp : splitOnColon (trimChars l) with
      | none => rw [hsp] at hb; cases hb
      | some vp =>
        obtain ⟨v, p⟩ := vp
        rw [hsp] at hb
        simp only at hb
        have hne : ¬((trimChars v = "" || trimChars p = "") = true) := by simp [hb]
        have hparse : parseLine l = some (trimChars v, trimChars p) := by
          simp only [parseLine, hsp]
          rw [if_neg hskip, if_neg hne]
        by_cases hex : ex (trimChars p) = true
        · have hge : goodEntries ex (l :: rest) =
              (trimChars v, trimChars p) :: goodEntries ex rest := by
            simp [goodEntries, List.filterMap_cons, hparse, hex]
          rw [hge]
          simp only [loadConfigAux, hsp]
          rw [if_neg hskip, if_neg hne, if_pos hex]
          rw [loadConfigAux_wellformed ex rest (n + 1)
            (config.set (trimChars v) (trimChars p)) hrest]
          simp [Config.set]
        · have hge : goodEntries ex (l :: rest) = goodEntries ex rest := by
            simp [goodEntries, List.filterMap_cons, hparse, hex]
          rw [hge]
          simp only [loadConfigAux, hsp]
          rw [if_neg hskip, if_neg hne, if_neg hex]
          exact loadConfigAux_wellformed ex rest (n + 1) config hrest

/-- C5 (corrected, amended): for a source whose non-blank, non-comment
lines are all well-formed, `loadConfig` yields exactly the entries whose
paths exist — an entry for a (label, path) line iff the path exists — and
a missing-path line never aborts the scan; but when zero entries survive,
the load as a whole still fails, with the empty-config error. -/
theorem loadConfig_wellformed_entries (ex : String → Bool) (lines : List String)
    (h : ∀ l ∈ lines, badLine l = false) :
    loadConfig ex lines =
      (if goodEntries ex lines = [] then .error .emptyConfig
       else .ok (goodEntries ex lines)) ∧
    (∀ label path, (label, path) ∈ goodEntries ex lines ↔
      ∃ l ∈ lines, parseLine l = some (label, path) ∧ ex path = true) := by
  constructor
  · rw [loadConfig, loadConfigAux_wellformed ex lines 0 [] h]
    rw [List.nil_append]
  · intro label path
    rw [goodEntries, List.mem_filterMap]
    constructor
    · rintro ⟨l, hl, hf⟩
      cases hp : parseLine l with
      | none => rw [hp] at hf; cases hf
      | some e =>
        rw [hp] at hf
        simp only [Option.some_bind] at hf
        by_cases hex : ex e.2 = true
        · rw [if_pos hex] at hf
          cases hf
          exact ⟨l, hl, hp, hex⟩
        · rw [if_neg hex] at hf
          cases hf
    · rintro ⟨l, hl, hp, hex⟩
      exact ⟨l, hl, by rw [hp]; simp [hex]⟩

/-- C5 counterexample: a source with a single well-formed line whose path
does not exist makes the load fail (with the empty-config error), contrary
to the claim that a missing-path line cannot make the load fail. -/
theorem loadConfig_fails_when_all_paths_missing :
    (∀ l ∈ ["8.2: /missing/php"], badLine l = false) ∧
    loadConfig (fun _ => false) ["8.2: /missing/php"] = .error .emptyConfig := by
  decide

/-- Witness for the amended C5 at a two-line source where only the first
path exists. -/
theorem loadConfig_wellformed_entries_witness :
    loadConfig (fun p => p = "/bin/php82") ["8.2: /bin/php82", "7.4: /missing"] =
      (if goodEntries (fun p => p = "/bin/php82") ["8.2: /bin/php82", "7.4: /missing"] = []
       then .error .emptyConfig
       else .ok (goodEntries (fun p => p = "/bin/php82") ["8.2: /bin/php82", "7.4: /missing"])) :=
  (loadConfig_wellformed_entries (fun p => p = "/bin/php82")
    ["8.2: /bin/php82", "7.4: /missing"] (by decide)).1

/-- `List.find?` returns the first element satisfying the predicate: the
list splits around the hit, everything before it failing the test. -/
theorem find?_first_split {α : Type} (p : α → Bool) :
    ∀ (l : List α) (x : α), l.find? p = some x →
      ∃ l1 l2, l = l1 ++ x :: l2 ∧ p x = true ∧ ∀ y ∈ l1, p y = false
  | [], x, h => by cases h
  | a :: rest, x, h => by
    rw [List.find?_cons] at h
    cases hp : p a with
    | true =>
      rw [hp] at h
      cases h
      exact ⟨[], rest, rfl, hp, by simp⟩
    | false =>
      rw [hp] at h
      obtain ⟨l1, l2, heq, hpx, hall⟩ := find?_first_split p rest x h
      refine ⟨a :: l1, l2, by rw [heq, List.cons_append], hpx, ?_⟩
      intro y hy
      cases hy with
      | head => exact hp
      | tail _ hmem => exact hall y hmem

/-- C8: `findConfigFile` probes the ordered platform-specific location
list and uses the first path at which a file exists (every earlier
candidate does not exist); when none exists it fails with an error listing
all probed paths. The executable-directory candidate is always probed
last, and on Unix the home-profile candidate first. -/
theorem findConfigFile_first_existing (e : Env) (ex : String → Bool) :
    (∀ p, findConfigFile e ex = .ok p →
      ∃ l1 l2, searchPaths e = l1 ++ p :: l2 ∧ ex p = true ∧ ∀ q ∈ l1, ex q = false) ∧
    ((∀ p ∈ searchPaths e, ex p = false) → searchPaths e ≠ [] →
      findConfigFile e ex = .error (.notFound (searchPaths e))) ∧
    ((∀ p ∈ searchPaths e, ex p = false) → searchPaths e = [] →
      findConfigFile e ex = .error .noLocations) ∧
    (∀ d, e.exeDir = some d →
      (searchPaths e).getLast? = some (joinPath d configFileName)) ∧
    (e.windows = false → e.home ≠ "" →
      (searchPaths e).head? = some (joinPath e.home ("." ++ configFileName))) := by
  refine ⟨?_, ?_, ?_, ?_, ?_⟩
  · intro p hp
    rw [findConfigFile] at hp
    cases hfind : (searchPaths e).find? ex with
    | some q =>
      rw [hfind] at hp
      have hqp : q = p := by injection hp
      subst hqp
      exact find?_first_split ex (searchPaths e) q hfind
    | none =>
      rw [hfind] at hp
      by_cases hnil : searchPaths e = [] <;> simp [hnil] at hp
  · intro hall hne
    have hfind : (searchPaths e).find? ex = none := by
      rw [List.find?_eq_none]
      intro x hx
      simp [hall x hx]
    rw [findConfigFile, hfind]
    simp [hne]
  · intro hall hnil
    have hfind : (searchPaths e).find? ex = none := by
      rw [List.find?_eq_none]
      intro x hx
      simp [hall x hx]
    rw [findConfigFile, hfind]
    simp [hnil]
  · intro d hd
    rw [searchPaths, hd]
    rw [List.getLast?_append_of_ne_nil _ (by simp)]
    rfl
  · intro hw hh
    simp [searchPaths, hw, hh]

/-- Witness for C8: with only `/etc/php-runner.yaml` existing on a Unix
system, discovery picks it, and the home candidate before it does not
exist. -/
theorem findConfigFile_first_existing_witness :
    ∃ l1 l2, searchPaths envUnix = l1 ++ "/etc/php-runner.yaml" :: l2 ∧
      exEtc "/etc/php-runner.yaml" = true ∧ ∀ q ∈ l1, exEtc q = false :=
  (findConfigFile_first_existing envUnix exEtc).1 "/etc/php-runner.yaml" (by decide)

/-- The scanner loop only produces a non-empty config whose values (paths)
are all non-empty, starting from an accumulator with that property. -/
theorem loadConfigAux_values (ex : String → Bool) :
    ∀ (lines : List String) (n : Nat) (acc config : Config),
      (∀ e ∈ acc, e.2 ≠ "") → loadConfigAux ex lines n acc = .ok config →
      config ≠ [] ∧ ∀ e ∈ config, e.2 ≠ ""
  | [], n, acc, config, hacc, h => by
    rw [loadConfigAux] at h
    by_cases hnil : acc = []
    · rw [if_pos hnil] at h; cases h
    · rw [if_neg hnil] at h
      cases h
      exact ⟨hnil, hacc⟩
  | l :: rest, n, acc, config, hacc, h => by
    rw [loadConfigAux] at h
    simp only at h
    by_cases hskip : (trimChars l = "" || isComment (trimChars l)) = true
    · rw [if_pos hskip] at h
      exact loadConfigAux_values ex rest (n + 1) acc config hacc h
    · rw [if_neg hskip] at h
      cases hsp : splitOnColon (trimChars l) with
      | none => rw [hsp] at h; cases h
      | some vp =>
        obtain ⟨v, p⟩ := vp
        rw [hsp] at h
        simp only at h
        by_cases hvp : (trimChars v = "" || trimChars p = "") = true
        · rw [if_pos hvp] at h; cases h
        · rw [if_neg hvp] at h
          by_cases hex : ex (trimChars p) = true
          · rw [if_pos hex] at h
            refine loadConfigAux_values ex rest (n + 1)
              (acc.set (trimChars v) (trimChars p)) config ?_ h
            intro e he
            rw [Config.set, List.mem_append] at he
            cases he with
            | inl hin => exact hacc e hin
            | inr hin =>
              simp only [List.mem_singleton] at hin
              subst hin
              intro hemp
              simp only at hemp
              exact hvp (by simp [hemp])
          · rw [if_neg hex] at h
            exact loadConfigAux_values ex rest (n + 1) acc config hacc h

/-- A key bound in a config whose values are all non-empty resolves to a
non-empty path. -/
theorem Config.get_mem_ne (c : Config) (hvals : ∀ e ∈ c, e.2 ≠ "") (k v : String)
    (hm : (k, v) ∈ c) : c.get k ≠ "" := by
  rw [Config.get]
  have hsome : ((c.reverse.find? (fun e => e.1 = k))).isSome = true := by
    rw [List.find?_isSome]
    exact ⟨(k, v), by simp [hm], by simp⟩
  cases hfind : c.reverse.find? (fun e => e.1 = k) with
  | none => rw [hfind] at hsome; cases hsome
  | some e =>
    have hmem : e ∈ c.reverse := List.mem_of_find?_eq_some hfind
    exact hvals e (by simpa using hmem)

/-- A key resolving to a non-empty path is present in the config. -/
theorem Config.get_ne_imp_hasKey (c : Config) (k : String) (h : c.get k ≠ "") :
    c.hasKey k = true := by
  rw [Config.get] at h
  cases hfind : c.reverse.find? (fun e => e.1 = k) with
  | none => rw [hfind] at h; exact absurd rfl h
  | some e =>
    have hmem : e ∈ c.reverse := List.mem_of_find?_eq_some hfind
    have hp := List.find?_some hfind
    rw [Config.hasKey, List.any_eq_true]
    refine ⟨e, by simpa using hmem, ?_⟩
    simpa using hp

/-- C10: whenever resolution over a config actually produced by
`loadConfig` returns (rather than reaching its fatal exit), the returned
label is a key of that config bound to a non-empty path — so `main`'s
post-resolution "not found in configuration" check can never trigger. -/
theorem getPhpVersion_returns_configured (ex : String → Bool) (lines : List String)
    (config : Config) (h : loadConfig ex lines = .ok config)
    (cwd : Dir) (probe : String) (fs : FS) :
    ∃ v, (getPhpVersion cwd config probe fs).version = some v ∧
      config.hasKey v = true ∧ config.get v ≠ "" := by
  obtain ⟨hne, hvals⟩ := loadConfigAux_values ex lines 0 [] config (by simp) h
  by_cases hb1 : (findPhpVersionFile fs cwd).1 ≠ "" ∧
      config.get (findPhpVersionFile fs cwd).1 ≠ ""
  · refine ⟨(findPhpVersionFile fs cwd).1, ?_,
      Config.get_ne_imp_hasKey config _ hb1.2, hb1.2⟩
    rw [getPhpVersion_branch1 cwd config probe fs hb1.1 hb1.2]
  · by_cases hb2 : probe ≠ "" ∧ config.get probe ≠ ""
    · refine ⟨probe, ?_, Config.get_ne_imp_hasKey config _ hb2.2, hb2.2⟩
      rw [getPhpVersion_branch2 cwd config probe fs hb1 hb2.1 hb2.2]
    · by_cases hd : config.get defaultVersion ≠ ""
      · refine ⟨defaultVersion, ?_, Config.get_ne_imp_hasKey config _ hd, hd⟩
        rw [getPhpVersion_branch3 cwd config probe fs hb1 hb2 hd]
      · rw [ne_eq, not_not] at hd
        cases hh : config.head? with
        | none => exact absurd (List.head?_eq_none_iff.mp hh) hne
        | some e =>
          have hmem : e ∈ config := List.mem_of_mem_head? (by rw [hh]; simp)
          have hget : config.get e.1 ≠ "" :=
            Config.get_mem_ne config hvals e.1 e.2 (by simpa using hmem)
          refine ⟨e.1, ?_, Config.get_ne_imp_hasKey config _ hget, hget⟩
          rw [getPhpVersion_branch4 cwd config probe fs hb1 hb2 hd]
          simp [hh]

/-- Witness for C10 on a loaded one-entry config with no marker and no
probe result. -/
theorem getPhpVersion_returns_configured_witness :
    ∃ v, (getPhpVersion ["proj"] [("8.2", "/bin/php82")] "" (fun _ => none)).version = some v ∧
      Config.hasKey [("8.2", "/bin/php82")] v = true ∧
      Config.get [("8.2", "/bin/php82")] v ≠ "" :=
  getPhpVersion_returns_configured (fun _ => true) ["8.2: /bin/php82"]
    [("8.2", "/bin/php82")] (by decide) ["proj"] "" (fun _ => none)

/-- C9: the tool exits 1 on every internal configuration, resolution or
launch error (config file not found, config load failed, fatal resolution,
resolved label missing from the config, interpreter binary missing, child
failed to launch), and when the child process runs and exits normally the
tool's exit code equals the child's own, including nonzero codes. -/
theorem mainRun_exit_codes (configRes : Except FindError String)
    (loadRes : Except LoadError Config) (cwd : Dir) (probe : String) (fs : FS)
    (phpExists : String → Bool) (child : String → ChildOutcome) :
    ((∃ err, configRes = .error err) →
      mainRun configRes loadRes cwd probe fs phpExists child = 1) ∧
    ((∃ err, loadRes = .error err) →
      mainRun configRes loadRes cwd probe fs phpExists child = 1) ∧
    (∀ config, loadRes = .ok config → (getPhpVersion cwd config probe fs).version = none →
      mainRun configRes loadRes cwd probe fs phpExists child = 1) ∧
    (∀ config v, loadRes = .ok config →
      (getPhpVersion cwd config probe fs).version = some v → config.hasKey v = false →
      mainRun configRes loadRes cwd probe fs phpExists child = 1) ∧
    (∀ config v, loadRes = .ok config →
      (getPhpVersion cwd config probe fs).version = some v → config.hasKey v = true →
      phpExists (config.get v) = false →
      mainRun configRes loadRes cwd probe fs phpExists child = 1) ∧
    (∀ s config v, configRes = .ok s → loadRes = .ok config →
      (getPhpVersion cwd config probe fs).version = some v → config.hasKey v = true →
      phpExists (config.get v) = true → child (config.get v) = .launchFail →
      mainRun configRes loadRes cwd probe fs phpExists child = 1) ∧
    (∀ s config v c, configRes = .ok s → loadRes = .ok config →
      (getPhpVersion cwd config probe fs).version = some v → config.hasKey v = true →
      phpExists (config.get v) = true → child (config.get v) = .exited c →
      mainRun configRes loadRes cwd probe fs phpExists child = c) := by
  refine ⟨?_, ?_, ?_, ?_, ?_, ?_, ?_⟩
  · rintro ⟨err, rfl⟩
    rfl
  · rintro ⟨err, rfl⟩
    cases configRes <;> rfl
  · intro config hload hver
    cases configRes with
    | error _ => rfl
    | ok s => simp [mainRun.eq_def, hload, hver]
  · intro config v hload hver hkey
    cases configRes with
    | error _ => rfl
    | ok s => simp [mainRun.eq_def, hload, hver, hkey]
  · intro config v hload hver hkey hex
    cases configRes with
    | error _ => rfl
    | ok s => simp [mainRun.eq_def, hload, hver, hkey, hex]
  · intro s config v hcfg hload hver hkey hex hchild
    subst hcfg
    simp [mainRun.eq_def, hload, hver, hkey, hex, hchild, runPhp]
  · intro s config v c hcfg hload hver hkey hex hchild
    subst hcfg
    simp [mainRun.eq_def, hload, hver, hkey, hex, hchild, runPhp]

/-- Witness for C9: on a healthy configuration the tool mirrors a child
exiting with code 3. -/
theorem mainRun_exit_codes_witness :
    mainRun (.ok "/etc/php-runner.yaml") (.ok [("8.2", "/bin/php82")]) ["proj"] ""
      (fun _ => none) (fun p => p == "/bin/php82") (fun _ => .exited 3) = 3 :=
  (mainRun_exit_codes (.ok "/etc/php-runner.yaml") (.ok [("8.2", "/bin/php82")]) ["proj"] ""
      (fun _ => none) (fun p => p == "/bin/php82") (fun _ => .exited 3)).2.2.2.2.2.2
    "/etc/php-runner.yaml" [("8.2", "/bin/php82")] "8.2" 3 rfl rfl
    (by decide) (by decide) (by decide) (by decide)
